import Mathlib

set_option maxRecDepth 1000000

/-!
Verification of the manifest-patching scripts of CapsWriter-Offline-mac.

The repository's scripts (`fix_project.py`, `simple_fix.py`,
`add_missing_files.py`, `fix_file_paths.py`, `fix_correct_paths.py`,
`fix_nested_paths.py`) edit an Xcode `project.pbxproj` manifest by pure
text surgery: Python `str.replace`, `re.search` over the whole file, and
a read/backup/overwrite commit.  This file embeds that text surgery over
`List Char` (a faithful model of a Python `str` as a sequence of
characters) and proves or refutes the specified properties.
-/

namespace PbxPatch

/-- A Python string, modelled as its list of characters. -/
abbrev Str := List Char

/-- Concatenation of the renderings of a list of items, in list order.
Mirrors a Python loop `acc += render(x)` over a list. -/
def catMap (f : α → Str) : List α → Str
  | [] => []
  | a :: l => f a ++ catMap f l

@[simp] theorem catMap_nil (f : α → Str) : catMap f [] = [] := rfl

@[simp] theorem catMap_cons (f : α → Str) (a : α) (l : List α) :
    catMap f (a :: l) = f a ++ catMap f l := rfl

/-- Split a string at the first (leftmost) occurrence of `pat`:
`splitFirst pat s = some (pre, post)` with `s = pre ++ pat ++ post` and the
occurrence at `pre` leftmost.  `none` when `pat` does not occur.  This is
the semantics of Python's leftmost regex/`str.find` search for a literal. -/
def splitFirst (pat : Str) : Str → Option (Str × Str)
  | [] => if pat = [] then some ([], []) else none
  | c :: s =>
    if pat <+: (c :: s) then some ([], (c :: s).drop pat.length)
    else (splitFirst pat s).map fun p => (c :: p.1, p.2)

/-- Python `old in s` membership of a literal substring. -/
def containsSub (pat s : Str) : Bool := (splitFirst pat s).isSome

/-- Scanner underlying `replaceAll`: `k` counts characters still to be
skipped (the tail of a matched occurrence already emitted as `new`). -/
def replScan (old new : Str) : Nat → Str → Str
  | _, [] => []
  | 0, c :: s =>
    if old ≠ [] ∧ old <+: (c :: s) then
      new ++ replScan old new (old.length - 1) s
    else c :: replScan old new 0 s
  | k + 1, _ :: s => replScan old new k s

/-- Python `s.replace(old, new)`: replace every non-overlapping occurrence
of `old`, scanning left to right.  (The scripts never call `replace` with
an empty `old`; for `old = []` this definition leaves `s` unchanged.) -/
def replaceAll (old new : Str) (s : Str) : Str := replScan old new 0 s

theorem replScan_eq (old new : Str) : ∀ (s : Str) (k : Nat),
    replScan old new k s = replaceAll old new (s.drop k) := by
  intro s
  induction s with
  | nil => intro k; cases k <;> rfl
  | cons c s ih =>
    intro k
    cases k with
    | zero => rfl
    | succ k => simpa [replScan] using ih k

/-- The one-step unfolding of `replaceAll` on a cons cell. -/
theorem replaceAll_cons (old new : Str) (c : Char) (s : Str) :
    replaceAll old new (c :: s) =
      if old ≠ [] ∧ old <+: (c :: s) then
        new ++ replaceAll old new (s.drop (old.length - 1))
      else c :: replaceAll old new s := by
  show replScan old new 0 (c :: s) = _
  by_cases h : old ≠ [] ∧ old <+: (c :: s)
  · simp only [replScan, if_pos h, replScan_eq]
  · simp only [replScan, if_neg h]
    rfl

/-- Scanner underlying `countSub`. -/
def countScan (pat : Str) : Nat → Str → Nat
  | _, [] => 0
  | 0, c :: s =>
    if pat ≠ [] ∧ pat <+: (c :: s) then
      1 + countScan pat (pat.length - 1) s
    else countScan pat 0 s
  | k + 1, _ :: s => countScan pat k s

/-- Number of non-overlapping occurrences of `pat`, counted the same way
`replaceAll` scans (left to right). -/
def countSub (pat s : Str) : Nat := countScan pat 0 s

theorem splitFirst_some (pat : Str) : ∀ (s pre post : Str),
    splitFirst pat s = some (pre, post) → s = pre ++ pat ++ post := by
  intro s
  induction s with
  | nil =>
    intro pre post h
    by_cases hp : pat = []
    · rw [splitFirst, if_pos hp] at h
      simp only [Option.some_inj, Prod.mk.injEq] at h
      simp [hp, ← h.1, ← h.2]
    · rw [splitFirst, if_neg hp] at h
      cases h
  | cons c s ih =>
    intro pre post h
    by_cases hp : pat <+: (c :: s)
    · rw [splitFirst, if_pos hp] at h
      simp only [Option.some_inj, Prod.mk.injEq] at h
      obtain ⟨t, ht⟩ := hp
      rw [← h.1, ← h.2, ← ht, List.nil_append, List.drop_left]
    · rw [splitFirst, if_neg hp] at h
      simp only [Option.map_eq_some'] at h
      obtain ⟨⟨a, b⟩, hab, heq⟩ := h
      have := ih a b hab
      simp only [Prod.mk.injEq] at heq
      rw [← heq.1, ← heq.2, this]
      simp

theorem splitFirst_eq_none_iff (pat s : Str) :
    splitFirst pat s = none ↔ ¬ pat <:+: s := by
  induction s with
  | nil =>
    by_cases hp : pat = []
    · rw [splitFirst, if_pos hp]
      simp [hp]
    · rw [splitFirst, if_neg hp]
      simp only [true_iff]
      intro h
      exact hp (List.eq_nil_of_infix_nil h)
  | cons c s ih =>
    by_cases hp : pat <+: (c :: s)
    · rw [splitFirst, if_pos hp]
      simp [List.infix_cons_iff, hp]
    · rw [splitFirst, if_neg hp]
      simp [Option.map_eq_none', ih, List.infix_cons_iff, hp]

theorem splitFirst_min (pat : Str) : ∀ (s pre post pre₁ post₁ : Str),
    splitFirst pat s = some (pre, post) → s = pre₁ ++ pat ++ post₁ →
    pre.length ≤ pre₁.length := by
  intro s
  induction s with
  | nil =>
    intro pre post pre₁ post₁ h _
    by_cases hp : pat = []
    · rw [splitFirst, if_pos hp] at h
      simp only [Option.some_inj, Prod.mk.injEq] at h
      simp [← h.1]
    · rw [splitFirst, if_neg hp] at h
      cases h
  | cons c s ih =>
    intro pre post pre₁ post₁ h hs
    by_cases hp : pat <+: (c :: s)
    · rw [splitFirst, if_pos hp] at h
      simp only [Option.some_inj, Prod.mk.injEq] at h
      simp [← h.1]
    · rw [splitFirst, if_neg hp] at h
      simp only [Option.map_eq_some'] at h
      obtain ⟨⟨a, b⟩, hab, heq⟩ := h
      simp only [Prod.mk.injEq] at heq
      match pre₁, hs with
      | [], hs =>
        exfalso
        exact hp ⟨post₁, by simpa using hs.symm⟩
      | c₁ :: pre₁, hs =>
        simp only [List.cons_append, List.cons.injEq] at hs
        have := ih a b pre₁ post₁ hab hs.2
        rw [← heq.1]
        simp only [List.length_cons]
        omega

theorem splitFirst_self_append (pat post : Str) :
    splitFirst pat (pat ++ post) = some ([], post) := by
  cases hpp : pat ++ post with
  | nil =>
    obtain ⟨h1, h2⟩ := List.append_eq_nil.mp hpp
    subst h1; subst h2
    rfl
  | cons c t =>
    have hpre : pat <+: c :: t := hpp ▸ List.prefix_append pat post
    rw [splitFirst, if_pos hpre, ← hpp, List.drop_left]

theorem splitFirst_eq_of (pat : Str) : ∀ (pre post : Str),
    (∀ pre₁ post₁, pre ++ pat ++ post = pre₁ ++ pat ++ post₁ →
      pre.length ≤ pre₁.length) →
    splitFirst pat (pre ++ pat ++ post) = some (pre, post) := by
  intro pre
  induction pre with
  | nil =>
    intro post _
    simpa using splitFirst_self_append pat post
  | cons c pre ih =>
    intro post hmin
    have hnp : ¬ pat <+: c :: (pre ++ pat ++ post) := by
      intro hp
      obtain ⟨t, ht⟩ := hp
      have h0 : (c :: pre) ++ pat ++ post = [] ++ pat ++ t := by
        simpa using ht.symm
      have := hmin [] t h0
      simp at this
    have hgoal : (c :: pre) ++ pat ++ post = c :: (pre ++ pat ++ post) := by simp
    rw [hgoal, splitFirst, if_neg hnp]
    have hmin' : ∀ pre₁ post₁, pre ++ pat ++ post = pre₁ ++ pat ++ post₁ →
        pre.length ≤ pre₁.length := by
      intro pre₁ post₁ he
      have := hmin (c :: pre₁) post₁ (by simp [he])
      simpa using this
    rw [ih post hmin']
    rfl

theorem replaceAll_none (old new : Str) : ∀ (s : Str),
    splitFirst old s = none → replaceAll old new s = s := by
  intro s
  induction s with
  | nil => intro _; rfl
  | cons c s ih =>
    intro h
    by_cases hp : old <+: (c :: s)
    · exfalso
      have hne : old ≠ [] := by
        intro he
        rw [splitFirst, if_pos (he ▸ List.nil_prefix)] at h
        cases h
      rw [splitFirst, if_pos hp] at h
      cases h
    · rw [splitFirst, if_neg hp] at h
      simp only [Option.map_eq_none'] at h
      rw [replaceAll_cons, if_neg (by simp [hp]), ih h]

theorem replaceAll_split (old new : Str) : ∀ (s pre post : Str), old ≠ [] →
    splitFirst old s = some (pre, post) →
    replaceAll old new s = pre ++ new ++ replaceAll old new post := by
  intro s
  induction s with
  | nil =>
    intro pre post hne h
    rw [splitFirst, if_neg hne] at h
    cases h
  | cons c s ih =>
    intro pre post hne h
    by_cases hp : old <+: (c :: s)
    · rw [splitFirst, if_pos hp] at h
      simp only [Option.some_inj, Prod.mk.injEq] at h
      rw [replaceAll_cons, if_pos ⟨hne, hp⟩, ← h.1, ← h.2]
      have hd : s.drop (old.length - 1) = (c :: s).drop old.length := by
        match old, hne with
        | o :: old', _ => simp
      rw [hd]
      simp
    · rw [splitFirst, if_neg hp] at h
      simp only [Option.map_eq_some'] at h
      obtain ⟨⟨a, b⟩, hab, heq⟩ := h
      simp only [Prod.mk.injEq] at heq
      rw [replaceAll_cons, if_neg (by simp [hp]), ih a b hne hab, ← heq.1, ← heq.2]
      simp

theorem replaceAll_unique (old new s pre post : Str) (hne : old ≠ [])
    (h : splitFirst old s = some (pre, post))
    (hpost : splitFirst old post = none) :
    replaceAll old new s = pre ++ new ++ post := by
  rw [replaceAll_split old new s pre post hne h, replaceAll_none old new post hpost]

/-- The section-locating regex of `fix_project.py` / `simple_fix.py`:
`re.search(r"(BEGIN.*?END)", content, re.DOTALL)`.  Leftmost occurrence of
the begin marker, then the lazy `.*?` stops at the first occurrence of the
end marker.  Returns `(text before the span, text between the markers,
text after the span)`. -/
def findSection (b e s : Str) : Option (Str × Str × Str) :=
  (splitFirst b s).bind fun p =>
  (splitFirst e p.2).map fun q => (p.1, q.1, q.2)

theorem findSection_parts (b e s pre mid post : Str)
    (h : findSection b e s = some (pre, mid, post)) :
    splitFirst b s = some (pre, mid ++ e ++ post) := by
  unfold findSection at h
  rw [Option.bind_eq_some] at h
  obtain ⟨⟨pre0, rest⟩, h1, h2⟩ := h
  rw [Option.map_eq_some'] at h2
  obtain ⟨⟨m, p⟩, h3, h4⟩ := h2
  simp only [Prod.mk.injEq] at h4
  obtain ⟨e1, e2, e3⟩ := h4
  subst e1; subst e2; subst e3
  rwa [splitFirst_some e rest m p h3] at h1

theorem findSection_splitFull (b e s pre mid post : Str)
    (h : findSection b e s = some (pre, mid, post)) :
    splitFirst (b ++ mid ++ e) s = some (pre, post) := by
  have h1 := findSection_parts b e s pre mid post h
  have hs : s = pre ++ (b ++ mid ++ e) ++ post := by
    have := splitFirst_some b s pre (mid ++ e ++ post) h1
    rw [this]; simp
  rw [hs]
  apply splitFirst_eq_of
  intro pre₁ post₁ heq
  apply splitFirst_min b s pre (mid ++ e ++ post) pre₁ (mid ++ e ++ post₁) h1
  rw [hs, heq]
  simp

/-- The insertion step shared by `fix_project.py` and `simple_fix.py`:
locate the section with the begin/end regex, then
`new_section = old_section.replace(end_marker, ins + end_marker)` and
`content = content.replace(old_section, new_section)` (both Python
`str.replace`, i.e. global replacement).  When the regex does not match
(`if match:` false) the content is returned unchanged. -/
def insertBeforeEndMarker (b e ins s : Str) : Str :=
  match findSection b e s with
  | none => s
  | some (_, mid, _) =>
    replaceAll (b ++ mid ++ e) (replaceAll e (ins ++ e) (b ++ mid ++ e)) s

/-- When the located span occurs exactly once in the manifest and the end
marker occurs in the span only at its end, the insertion rewrites the
manifest to `pre ++ b ++ mid ++ ins ++ e ++ post`: the inserted text sits
immediately before the end marker and everything outside the located span
is untouched. -/
theorem insertBeforeEndMarker_eq (b e ins s pre mid post : Str)
    (h : findSection b e s = some (pre, mid, post))
    (he : e ≠ [])
    (hE : splitFirst e (b ++ mid ++ e) = some (b ++ mid, []))
    (hu : splitFirst (b ++ mid ++ e) post = none) :
    insertBeforeEndMarker b e ins s = pre ++ b ++ mid ++ ins ++ e ++ post := by
  have hfull := findSection_splitFull b e s pre mid post h
  have hnewsec : replaceAll e (ins ++ e) (b ++ mid ++ e) = b ++ mid ++ ins ++ e := by
    have hnil : splitFirst e ([] : Str) = none := by
      rw [splitFirst, if_neg he]
    have := replaceAll_unique e (ins ++ e) (b ++ mid ++ e) (b ++ mid) [] he hE hnil
    rw [this]; simp
  have hold_ne : b ++ mid ++ e ≠ [] := by
    intro hcon
    exact he (List.append_eq_nil.mp hcon).2
  have hrepl := replaceAll_unique (b ++ mid ++ e) (b ++ mid ++ ins ++ e) s pre post
    hold_ne hfull hu
  simp only [insertBeforeEndMarker, h, hnewsec, hrepl]
  simp

/-- Claim C2 (amended): when a section's begin marker is absent the regex
does not match and the insertion step silently returns the manifest
unchanged, the patch continuing with its remaining steps; when a marker
occurs more than once the leftmost match is silently used.  No
`SectionNotFound` or `SectionAmbiguous` failure exists in the code — no
`if match:` branch can abort. -/
theorem c2_absent_marker_silently_skipped (b e ins s : Str)
    (h : splitFirst b s = none) :
    insertBeforeEndMarker b e ins s = s := by
  simp only [insertBeforeEndMarker, findSection, h, Option.none_bind]

/- Section markers, as the literal strings in the scripts. -/

def beginFileRef : Str := "/* Begin PBXFileReference section */".toList

def endFileRef : Str := "/* End PBXFileReference section */".toList

def beginBuildFile : Str := "/* Begin PBXBuildFile section */".toList

def endBuildFile : Str := "/* End PBXBuildFile section */".toList

def beginGroupSec : Str := "/* Begin PBXGroup section */".toList

def endGroupSec : Str := "/* End PBXGroup section */".toList

/- The `([A-F0-9]{24}) /* Sources */ = {[^}]*LIT = \([^)]*\);` regex used
for the Sources group (`LIT = children`) and the Sources build phase
(`LIT = files`). -/

/-- Character class `[A-F0-9]` of the Sources patterns. -/
def isHexUpper (c : Char) : Bool :=
  ('0' ≤ c && c ≤ '9') || ('A' ≤ c && c ≤ 'F')

def sourcesHdr : Str := " /* Sources */ = \x7b".toList

def childrenLit : Str := "children = (".toList

def filesLit : Str := "files = (".toList

def closeParen : Str := ");".toList

/-- All splittings of `s` at an occurrence of `lit`, leftmost first. -/
def splitsOn (lit : Str) : Str → List (Str × Str)
  | [] => if lit = [] then [([], [])] else []
  | c :: s =>
    (if lit <+: (c :: s) then [(([] : Str), (c :: s).drop lit.length)] else []) ++
      (splitsOn lit s).map fun p => (c :: p.1, p.2)

/-- Regex tail `[^)]*\);`: a greedy run of non-`)` characters must be
followed by the literal `);` (the engine cannot backtrack into a shorter
run, since every shorter run ends before a non-`)` character). -/
def parenClose (s : Str) : Option (Str × Str) :=
  match s.drop ((s.takeWhile fun c => c ≠ ')').length) with
  | ')' :: ';' :: r => some ((s.takeWhile fun c => c ≠ ')') ++ [')', ';'], r)
  | _ => none

/-- Regex tail `[^}]*LIT[^)]*\);` after the opening brace: the greedy
`[^}]*` tries the latest occurrence of `LIT` that is preceded only by
non-`}` characters, backtracking to earlier occurrences on failure. -/
def pickInner (lit : Str) (s : Str) : Option (Str × Str) :=
  (((splitsOn lit s).filter fun p => p.1.all fun c => c ≠ '}').reverse).findSome?
    fun p => (parenClose p.2).map fun q => (p.1 ++ lit ++ q.1, q.2)

/-- Try to match the Sources pattern at the start of `s`: 24 characters of
`[A-F0-9]`, the literal header, then the brace-delimited tail.  Returns
`(matched span, rest)`. -/
def sourcesSpanAt (lit : Str) (s : Str) : Option (Str × Str) :=
  if (s.take 24).length = 24 ∧ (s.take 24).all isHexUpper = true ∧
      sourcesHdr <+: s.drop 24 then
    (pickInner lit (s.drop (24 + sourcesHdr.length))).map fun q =>
      (s.take 24 ++ sourcesHdr ++ q.1, q.2)
  else none

/-- `re.search` of the Sources pattern: leftmost position where the
pattern matches.  Returns `(text before, matched span, text after)`. -/
def findSourcesSpanG (lit : Str) : Str → Option (Str × Str × Str)
  | [] => none
  | c :: s =>
    match sourcesSpanAt lit (c :: s) with
    | some q => some ([], q.1, q.2)
    | none => (findSourcesSpanG lit s).map fun t => (c :: t.1, t.2.1, t.2.2)

/- `simple_fix.py`: the in-memory patch (lines 27-66).  The script patches
one hardcoded file, `DIContainer.swift`. -/

def sfFileRefEntry (file_uuid : Str) : Str :=
  "\t\t".toList ++ file_uuid ++
    " /* DIContainer.swift */ = \x7bisa = PBXFileReference; lastKnownFileType = sourcecode.swift; path = \"Sources/Core/DIContainer.swift\"; sourceTree = \"<group>\"; \x7d;\n".toList

def sfBuildFileEntry (build_uuid file_uuid : Str) : Str :=
  "\t\t".toList ++ build_uuid ++
    " /* DIContainer.swift in Sources */ = \x7bisa = PBXBuildFile; fileRef = ".toList ++
    file_uuid ++ " /* DIContainer.swift */; \x7d;\n".toList

def sfPhaseEntry (build_uuid : Str) : Str :=
  "\t\t\t\t".toList ++ build_uuid ++
    " /* DIContainer.swift in Sources */,\n\t\t\t".toList

/-- The in-memory patch of `simple_fix`: insert the file reference before
the PBXFileReference end marker, insert the build file before the
PBXBuildFile end marker, then add the build file to the `files = (...)`
list of the Sources build phase if its identifier is not already there. -/
def simple_fix_patch (file_uuid build_uuid content : Str) : Str :=
  let c1 := insertBeforeEndMarker beginFileRef endFileRef
    (sfFileRefEntry file_uuid ++ ['\t']) content
  let c2 := insertBeforeEndMarker beginBuildFile endBuildFile
    (sfBuildFileEntry build_uuid file_uuid ++ ['\t']) c1
  match findSourcesSpanG filesLit c2 with
  | none => c2
  | some (_, span, _) =>
    if containsSub build_uuid span then c2
    else replaceAll span
      (replaceAll closeParen (sfPhaseEntry build_uuid ++ closeParen) span) c2

/- `fix_project.py`: `add_files_to_xcode_project` (lines 14-125, the
in-memory patch).  The script patches a hardcoded list of seven paths,
minting a `file_uuid` and a `build_uuid` per path (dict insertion order is
the list order) and one `sources_core_group_uuid`.  The embedding takes the
`(path, file_uuid, build_uuid)` triples and the group identifier as
parameters. -/

/-- `os.path.basename`: the part of the path after the last `/`. -/
def basename (p : Str) : Str :=
  p.foldl (fun acc c => if c = '/' then [] else acc ++ [c]) []

def fpFileRefEntry (f : Str × Str × Str) : Str :=
  "\t\t".toList ++ f.2.1 ++ " /* ".toList ++ basename f.1 ++
    " */ = \x7bisa = PBXFileReference; lastKnownFileType = sourcecode.swift; path = \"".toList ++
    basename f.1 ++ "\"; sourceTree = \"<group>\"; \x7d;\n".toList

def fpBuildFileEntry (f : Str × Str × Str) : Str :=
  "\t\t".toList ++ f.2.2 ++ " /* ".toList ++ basename f.1 ++
    " in Sources */ = \x7bisa = PBXBuildFile; fileRef = ".toList ++ f.2.1 ++
    " /* ".toList ++ basename f.1 ++ " */; \x7d;\n".toList

/-- Text inserted before the `);` of the Sources group's child list to
reference the new `Core` group. -/
def coreChildLine (coreUuid : Str) : Str :=
  "\t\t\t\t".toList ++ coreUuid ++ " /* Core */,\n\t\t\t".toList

def groupChildEntry (f : Str × Str × Str) : Str :=
  "\t\t\t\t".toList ++ f.2.1 ++ " /* ".toList ++ basename f.1 ++ " */,\n".toList

/-- The rendered `Core` group definition (the triple-quoted f-string of
`fix_project.py`). -/
def coreGroupDef (coreUuid : Str) (files : List (Str × Str × Str)) : Str :=
  "\t\t".toList ++ coreUuid ++
    " /* Core */ = \x7b\n\t\t\tisa = PBXGroup;\n\t\t\tchildren = (\n".toList ++
    catMap groupChildEntry files ++
    "\t\t\t);\n\t\t\tpath = \"Sources/Core\";\n\t\t\tsourceTree = \"<group>\";\n\t\t\x7d;".toList

/-- `fix_project.py` lines 77-89: if a `Sources` group block matches the
children pattern and the text `Sources/Core` does not occur in it, insert
a reference to the new `Core` group before the `);` of its child list;
otherwise leave the content unchanged. -/
def groupRefStep (coreUuid content : Str) : Str :=
  match findSourcesSpanG childrenLit content with
  | none => content
  | some (_, span, _) =>
    if containsSub "Sources/Core".toList span then content
    else replaceAll span
      (replaceAll closeParen (coreChildLine coreUuid ++ closeParen) span) content

def phaseEntry (build_uuid file_name : Str) : Str :=
  "\t\t\t\t".toList ++ build_uuid ++ " /* ".toList ++ file_name ++
    " in Sources */,\n\t\t\t".toList

/-- `fix_project.py` lines 115-125: for each `(build_uuid, file_name)`, if
the identifier is not already in the build-phase span, replace `);` in the
span by the new entry followed by `);`, replace the old span by the new
span in the content, and continue with the updated span. -/
def sourcesPhaseLoop : List (Str × Str) → Str → Str → Str
  | [], content, _ => content
  | (build_uuid, file_name) :: rest, content, sbd =>
    if containsSub build_uuid sbd then sourcesPhaseLoop rest content sbd
    else
      sourcesPhaseLoop rest
        (replaceAll sbd
          (replaceAll closeParen (phaseEntry build_uuid file_name ++ closeParen) sbd)
          content)
        (replaceAll closeParen (phaseEntry build_uuid file_name ++ closeParen) sbd)

/-- `fix_project.py` lines 112-125: locate the Sources build phase once,
then run the insertion loop; when the pattern does not match, nothing
happens. -/
def sourcesPhaseStep (items : List (Str × Str)) (content : Str) : Str :=
  match findSourcesSpanG filesLit content with
  | none => content
  | some (_, span, _) => sourcesPhaseLoop items content span

/-- The in-memory patch of `add_files_to_xcode_project` (`fix_project.py`):
file references, build files, Sources-group child reference, `Core` group
definition, build-phase membership — in that order. -/
def add_files_to_xcode_project_patch (files : List (Str × Str × Str))
    (coreUuid content : Str) : Str :=
  let c1 := insertBeforeEndMarker beginFileRef endFileRef
    (catMap fpFileRefEntry files ++ ['\t']) content
  let c2 := insertBeforeEndMarker beginBuildFile endBuildFile
    (catMap fpBuildFileEntry files ++ ['\t']) c1
  let c3 := groupRefStep coreUuid c2
  let c4 := insertBeforeEndMarker beginGroupSec endGroupSec
    (coreGroupDef coreUuid files ++ "\n\t".toList) c3
  sourcesPhaseStep (files.map fun f => (f.2.2, basename f.1)) c4

/- `add_missing_files.py`: its regex literals are written with doubled
backslashes inside raw strings, so `/\\*` matches a `/` followed by zero
or more literal backslash characters (and `\\{`, `\\(`, `\\)` demand a
literal backslash), not the `/*`‥`*/` comment markers.  The matchers below
embed those (defective) patterns with Python's leftmost/greedy/lazy
semantics. -/

/-- Drop a leading run of literal backslashes (the regex piece `\\*`,
i.e. an escaped backslash under the `*` quantifier). -/
def dropBs (s : Str) : Str := s.drop ((s.takeWhile fun c => c = '\\').length)

/-- Match a literal and return the remainder. -/
def dropLit (lit s : Str) : Option Str :=
  if lit <+: s then some (s.drop lit.length) else none

/-- Match the defective marker pattern `/\\*LIT\\*/` (a slash, any number
of backslashes, the literal, any number of backslashes, a slash) at the
start of `s`; return the remainder. -/
def bugMarkerRest (lit : Str) (s : Str) : Option Str :=
  match s with
  | [] => none
  | c :: t =>
    if c = '/' then
      (dropLit lit (dropBs t)).bind fun t2 =>
        match dropBs t2 with
        | [] => none
        | d :: r => if d = '/' then some r else none
    else none

/-- First position at which the defective marker matches; returns the
remainder after the marker. -/
def findBugMarkerRest (lit : Str) : Str → Option Str
  | [] => none
  | c :: s =>
    match bugMarkerRest lit (c :: s) with
    | some r => some r
    | none => findBugMarkerRest lit s

/-- `re.search` for the defective section pattern `(begin.*?end)` with
`re.DOTALL`: leftmost position where the begin marker matches and an end
marker occurs later; returns `(text before the match, text after it)`. -/
def bugFindSectionRest (bLit eLit : Str) : Str → Option (Str × Str)
  | [] => none
  | c :: s =>
    match bugMarkerRest bLit (c :: s) with
    | some r =>
      match findBugMarkerRest eLit r with
      | some rest => some ([], rest)
      | none => (bugFindSectionRest bLit eLit s).map fun t => (c :: t.1, t.2)
    | none => (bugFindSectionRest bLit eLit s).map fun t => (c :: t.1, t.2)

/-- One section step of `add_missing_files`: search with the defective
pattern; on a match, splice the entries before the (real) end marker text
inside the matched span and replace the span globally; on no match
(`if match:` false) return the content unchanged. -/
def amSectionStep (bLit eLit ins endMarker content : Str) : Str :=
  match bugFindSectionRest bLit eLit content with
  | none => content
  | some (pre, rest) =>
    replaceAll ((content.drop pre.length).take (content.length - pre.length - rest.length))
      (replaceAll endMarker (ins ++ endMarker)
        ((content.drop pre.length).take (content.length - pre.length - rest.length)))
      content

/-- The literal ` = \{` demanded by the defective Sources pattern
(`\\{` matches a backslash followed by a brace). -/
def bugSourcesTailLit : Str := " = \\\x7b".toList

/-- The literal `files = \(` demanded by the defective Sources pattern. -/
def bugFilesLit : Str := "files = \\(".toList

/-- Defective tail `[^)]*\\);`: a run of non-`)` characters that ends in a
literal backslash, followed by `);`. -/
def bugParenCloseRest (s : Str) : Option Str :=
  match s.drop ((s.takeWhile fun c => c ≠ ')').length) with
  | ')' :: ';' :: r =>
    if (s.takeWhile fun c => c ≠ ')').getLast? = some '\\' then some r else none
  | _ => none

/-- Defective tail `[^}]*files = \([^)]*\\);` after the brace, greedy. -/
def bugPickInnerRest (s : Str) : Option Str :=
  (((splitsOn bugFilesLit s).filter fun p => p.1.all fun c => c ≠ '}').reverse).findSome?
    fun p => bugParenCloseRest p.2

/-- The defective Sources pattern of `add_missing_files`, matched at the
start of `s`. -/
def bugSourcesAtRest (s : Str) : Option Str :=
  if (s.take 24).length = 24 ∧ (s.take 24).all isHexUpper = true then
    match s.drop 24 with
    | c1 :: c2 :: t =>
      if c1 = ' ' ∧ c2 = '/' then
        (dropLit " Sources ".toList (dropBs t)).bind fun t2 =>
          match dropBs t2 with
          | [] => none
          | d :: u =>
            if d = '/' then (dropLit bugSourcesTailLit u).bind bugPickInnerRest
            else none
      else none
    | _ => none
  else none

/-- `re.search` of the defective Sources pattern: leftmost match. -/
def bugFindSourcesRest : Str → Option (Str × Str)
  | [] => none
  | c :: s =>
    match bugSourcesAtRest (c :: s) with
    | some r => some ([], r)
    | none => (bugFindSourcesRest s).map fun t => (c :: t.1, t.2)

/- Rendered entries of `add_missing_files.py`: its f-strings use `\\t`,
`\\n` and `\\\"`, so the rendered text contains literal backslash-t,
backslash-n and backslash-quote sequences. -/

def amFileRefEntry (f : Str × Str × Str) : Str :=
  "\\t\\t".toList ++ f.2.1 ++ " /* ".toList ++ basename f.1 ++
    " */ = \x7bisa = PBXFileReference; lastKnownFileType = sourcecode.swift; path = \\\"".toList ++
    f.1 ++ "\\\"; sourceTree = \\\"<group>\\\"; \x7d;\\n".toList

def amBuildFileEntry (f : Str × Str × Str) : Str :=
  "\\t\\t".toList ++ f.2.2 ++ " /* ".toList ++ basename f.1 ++
    " in Sources */ = \x7bisa = PBXBuildFile; fileRef = ".toList ++ f.2.1 ++
    " /* ".toList ++ basename f.1 ++ " */; \x7d;\\n".toList

def amPhaseEntry (build_uuid file_name : Str) : Str :=
  "\\t\\t\\t\\t".toList ++ build_uuid ++ " /* ".toList ++ file_name ++
    " in Sources */,\\n\\t\\t\\t".toList

/-- The build-phase loop of `add_missing_files` (same structure as in
`fix_project`, with the backslash-laden entries). -/
def amPhaseLoop : List (Str × Str) → Str → Str → Str
  | [], content, _ => content
  | (build_uuid, file_name) :: rest, content, sbd =>
    if containsSub build_uuid sbd then amPhaseLoop rest content sbd
    else
      amPhaseLoop rest
        (replaceAll sbd
          (replaceAll closeParen (amPhaseEntry build_uuid file_name ++ closeParen) sbd)
          content)
        (replaceAll closeParen (amPhaseEntry build_uuid file_name ++ closeParen) sbd)

def amBeginFileRefLit : Str := " Begin PBXFileReference section ".toList

def amEndFileRefLit : Str := " End PBXFileReference section ".toList

def amBeginBuildFileLit : Str := " Begin PBXBuildFile section ".toList

def amEndBuildFileLit : Str := " End PBXBuildFile section ".toList

/-- The in-memory patch of `add_missing_files` (lines 14-80): two section
steps driven by the defective patterns, then the build-phase loop driven
by the defective Sources pattern. -/
def add_missing_files_patch (files : List (Str × Str × Str)) (content : Str) : Str :=
  let c1 := amSectionStep amBeginFileRefLit amEndFileRefLit
    (catMap amFileRefEntry files ++ "\\t".toList) endFileRef content
  let c2 := amSectionStep amBeginBuildFileLit amEndBuildFileLit
    (catMap amBuildFileEntry files ++ "\\t".toList) endBuildFile c1
  match bugFindSourcesRest c2 with
  | none => c2
  | some (pre, rest) =>
    amPhaseLoop (files.map fun f => (f.2.2, basename f.1)) c2
      ((c2.drop pre.length).take (c2.length - pre.length - rest.length))

/- `fix_file_paths.py`: builds `f'path = "{re.escape(filename)}";'` —
a regex-escaped literal — but then uses plain `str.replace` with it. -/

/-- The characters Python `re.escape` (3.7+) escapes with a backslash. -/
def reSpecialChars : Str :=
  "()[]\x7b\x7d?*+-|^$\\.&~# \t\n\r".toList ++ ['\x0b', '\x0c']

def reEscapeChar (c : Char) : Str :=
  if c ∈ reSpecialChars then ['\\', c] else [c]

/-- Python `re.escape`. -/
def reEscape (s : Str) : Str := catMap reEscapeChar s

/-- The hardcoded `path_fixes` dictionary of `fix_file_paths.py`, in
insertion order. -/
def path_fixes : List (Str × Str) :=
  [ ("DIContainer.swift".toList, "Sources/Core/DIContainer.swift".toList),
    ("ErrorHandler.swift".toList, "Sources/Core/ErrorHandler.swift".toList),
    ("AppEvents.swift".toList, "Sources/Core/AppEvents.swift".toList),
    ("EventBus.swift".toList, "Sources/Core/EventBus.swift".toList),
    ("StateManager.swift".toList, "Sources/Core/StateManager.swift".toList),
    ("ErrorHandlerIntegration.swift".toList, "Sources/Core/ErrorHandlerIntegration.swift".toList),
    ("EventBusAdapter.swift".toList, "Sources/Core/EventBusAdapter.swift".toList) ]

/-- One iteration of the `fix_file_paths` loop:
`content.replace(f'path = "{re.escape(filename)}";', f'path = "{correct_path}";')`. -/
def fix_file_paths_step (content : Str) (fix : Str × Str) : Str :=
  replaceAll ("path = \"".toList ++ reEscape fix.1 ++ "\";".toList)
    ("path = \"".toList ++ fix.2 ++ "\";".toList) content

/-- The in-memory path-rewriting pass of `fix_file_paths.py`
(lines 27-33). -/
def fix_file_paths_patch (content : Str) : Str :=
  path_fixes.foldl fix_file_paths_step content

/- `generate_uuid` (identical in `fix_project.py`, `simple_fix.py`,
`add_missing_files.py`): `uuid.uuid4().hex[:24].upper()`.  `uuid4` is a
128-bit random value; `.hex` renders it as 32 zero-padded lowercase hex
digits. -/

/-- Lowercase hexadecimal digit. -/
def hexDigit (n : Nat) : Char :=
  if n < 10 then Char.ofNat (48 + n) else Char.ofNat (87 + n)

/-- Fixed-width big-endian hexadecimal rendering (`'%032x' % n` for
`width = 32`). -/
def hexRender : Nat → Nat → Str
  | 0, _ => []
  | w + 1, n => hexRender w (n / 16) ++ [hexDigit (n % 16)]

/-- `generate_uuid`, with the 128-bit random draw of `uuid.uuid4()` made
an explicit parameter. -/
def generate_uuid (r : Nat) : Str :=
  ((hexRender 32 (r % 2 ^ 128)).take 24).map Char.toUpper

/- Backup-and-commit.  The file system is modelled as a map from path to
content; a write updates one path. -/

def writeFS (fs : Str → Str) (p v : Str) : Str → Str :=
  fun q => if q = p then v else fs q

/-- The commit epilogue shared by `fix_project.py` (suffix `.backup`),
`add_missing_files.py`, `fix_file_paths.py`, `fix_correct_paths.py` and
`fix_nested_paths.py`: read the current on-disk content, write it to
`path ++ suffix` (truncating any previous backup), then overwrite `path`
with the patched text. -/
def backup_then_write (suffix path patched : Str) (fs : Str → Str) : Str → Str :=
  writeFS (writeFS fs (path ++ suffix) (fs path)) path patched

/-- The write events of `backup_then_write` in program order: the backup
write (carrying the pre-mutation content) strictly precedes the overwrite
of the manifest. -/
def backup_then_write_events (suffix path patched : Str) (fs : Str → Str) :
    List (Str × Str) :=
  [(path ++ suffix, fs path), (path, patched)]

def applyEvents (evs : List (Str × Str)) (fs : Str → Str) : Str → Str :=
  evs.foldl (fun g e => writeFS g e.1 e.2) fs

def backupSuffix : Str := ".backup".toList

def correctFixBackupSuffix : Str := ".correct_fix_backup".toList

/-- The commit of `fix_project.py` (lines 127-134). -/
def fix_project_commit (path patched : Str) (fs : Str → Str) : Str → Str :=
  backup_then_write backupSuffix path patched fs

/-- The commit of `fix_correct_paths.py` (lines 32-39). -/
def fix_correct_paths_commit (path patched : Str) (fs : Str → Str) : Str → Str :=
  backup_then_write correctFixBackupSuffix path patched fs

/-- The commit of `simple_fix.py` (lines 67-69): the patched text is
written directly to the manifest path; no backup write of any kind. -/
def simple_fix_commit (path patched : Str) (fs : Str → Str) : Str → Str :=
  writeFS fs path patched

/-- The write events of `simple_fix`'s commit: a single overwrite. -/
def simple_fix_commit_events (path patched : Str) : List (Str × Str) :=
  [(path, patched)]

/-! Helper lemmas. -/

theorem prefix_to_within (l₁ l₂ : Str) (h : l₁ <+: l₂) : l₁ <:+: l₂ := by
  obtain ⟨u, hu⟩ := h
  exact ⟨[], u, by simpa using hu⟩

theorem replaceAll_id_of_missing_char (old new s : Str) (c : Char)
    (hc : c ∈ old) (hs : c ∉ s) : replaceAll old new s = s := by
  apply replaceAll_none
  rw [splitFirst_eq_none_iff]
  intro hinf
  exact hs (hinf.subset hc)

theorem backup_then_write_reads (suffix path patched : Str) (fs : Str → Str)
    (h : suffix ≠ []) :
    backup_then_write suffix path patched fs (path ++ suffix) = fs path := by
  have hne : path ++ suffix ≠ path := by
    intro he
    have hl := congrArg List.length he
    simp only [List.length_append] at hl
    have : suffix.length = 0 := by omega
    exact h (List.length_eq_zero.mp this)
  simp [backup_then_write, writeFS, hne]

theorem backup_then_write_at_path (suffix path patched : Str) (fs : Str → Str) :
    backup_then_write suffix path patched fs path = patched := by
  simp [backup_then_write, writeFS]

theorem backup_then_write_frame (suffix path patched : Str) (fs : Str → Str)
    (q : Str) (h1 : q ≠ path) (h2 : q ≠ path ++ suffix) :
    backup_then_write suffix path patched fs q = fs q := by
  simp only [backup_then_write, writeFS, if_neg h1, if_neg h2]

/-! Claim theorems. -/

def hexUpperAlphabet : Str := "0123456789ABCDEF".toList

theorem hexRender_length (w : Nat) : ∀ n, (hexRender w n).length = w := by
  induction w with
  | zero => intro n; rfl
  | succ w ih => intro n; simp [hexRender, ih]

theorem hexRender_mem (w : Nat) : ∀ n c, c ∈ hexRender w n →
    ∃ k, k < 16 ∧ c = hexDigit k := by
  induction w with
  | zero =>
    intro n c h
    simp [hexRender] at h
  | succ w ih =>
    intro n c h
    simp only [hexRender, List.mem_append, List.mem_singleton] at h
    rcases h with h | h
    · exact ih (n / 16) c h
    · exact ⟨n % 16, Nat.mod_lt _ (by norm_num), h⟩

/-- Claim C8: every identifier produced by `generate_uuid`
(`uuid.uuid4().hex[:24].upper()`) is a token of fixed length 24 over the
uppercase hexadecimal alphabet 0-9 A-F, for every underlying random
value. -/
theorem c8_generate_uuid_shape (r : Nat) :
    (generate_uuid r).length = 24 ∧
      ∀ c ∈ generate_uuid r, c ∈ hexUpperAlphabet := by
  constructor
  · simp [generate_uuid, List.length_take, hexRender_length]
  · intro c hc
    simp only [generate_uuid, List.mem_map] at hc
    obtain ⟨d, hd, rfl⟩ := hc
    have hd' : d ∈ hexRender 32 (r % 2 ^ 128) := List.mem_of_mem_take hd
    obtain ⟨k, hk, rfl⟩ := hexRender_mem 32 _ d hd'
    have hall : ∀ k, k < 16 → Char.toUpper (hexDigit k) ∈ hexUpperAlphabet := by decide
    exact hall k hk

/-- Claim C3 (amended): in `fix_project.py` (and equally in
`add_missing_files.py`, `fix_file_paths.py`, `fix_correct_paths.py`,
`fix_nested_paths.py`) the commit writes the current on-disk content to
the backup path strictly before the manifest is overwritten — the first
write event is the backup carrying the pre-mutation snapshot — and this
holds for every prior file-system state, so an existing backup is simply
overwritten.  `simple_fix.py`, by contrast, omits the backup write
entirely (see the counterexample). -/
theorem c3_fix_project_backup_before_overwrite (path patched : Str) (fs : Str → Str) :
    backup_then_write_events backupSuffix path patched fs =
      [(path ++ backupSuffix, fs path), (path, patched)] ∧
    fix_project_commit path patched fs (path ++ backupSuffix) = fs path ∧
    fix_project_commit path patched fs path = patched ∧
    applyEvents (backup_then_write_events backupSuffix path patched fs) fs =
      fix_project_commit path patched fs := by
  refine ⟨rfl, ?_, ?_, rfl⟩
  · exact backup_then_write_reads backupSuffix path patched fs (by decide)
  · exact backup_then_write_at_path backupSuffix path patched fs

def c3Path : Str := "project.pbxproj".toList

def c3FS : Str → Str :=
  fun q => if q = c3Path then "ORIGINAL".toList else "STALE".toList

/-- Claim C3 (counterexample): `simple_fix.py` commits the patched text
with no backup write at all — after its commit, the backup path still
holds the stale content of a previous run instead of the pre-mutation
manifest, refuting "the backup step is never skipped". -/
theorem c3_simple_fix_commit_skips_backup :
    simple_fix_commit c3Path "NEW".toList c3FS (c3Path ++ backupSuffix) ≠
      c3FS c3Path ∧
    simple_fix_commit_events c3Path "NEW".toList =
      [(c3Path, "NEW".toList)] := by
  constructor
  · intro h
    have hne : c3Path ++ backupSuffix ≠ c3Path := by decide
    simp [simple_fix_commit, writeFS, c3FS, hne] at h
  · rfl

/-- Claim C4: for the commits of `fix_project.py` and
`fix_correct_paths.py`, the backup file's content read back equals the
pre-mutation manifest content byte for byte, whatever the previous
file-system state and patched text. -/
theorem c4_backup_roundtrip (path patched : Str) (fs : Str → Str) :
    fix_project_commit path patched fs (path ++ backupSuffix) = fs path ∧
    fix_correct_paths_commit path patched fs (path ++ correctFixBackupSuffix) =
      fs path :=
  ⟨backup_then_write_reads backupSuffix path patched fs (by decide),
   backup_then_write_reads correctFixBackupSuffix path patched fs (by decide)⟩

theorem fix_file_paths_foldl_id (l : List (Str × Str)) (content : Str)
    (h : '\\' ∉ content)
    (hl : ∀ fix ∈ l,
      '\\' ∈ ("path = \"".toList ++ reEscape fix.1 ++ "\";".toList)) :
    l.foldl fix_file_paths_step content = content := by
  induction l with
  | nil => rfl
  | cons a l ih =>
    simp only [List.foldl_cons]
    have hstep : fix_file_paths_step content a = content := by
      simp only [fix_file_paths_step]
      exact replaceAll_id_of_missing_char _ _ _ '\\' (hl a (by simp)) h
    rw [hstep]
    exact ih fun fix hf => hl fix (List.mem_cons_of_mem a hf)

/-- Claim C10: on a manifest containing no backslash character, the
path-rewriting pass of `fix_file_paths` is the identity: the search
literal applies `re.escape` to the filename (yielding, e.g.,
`path = "DIContainer\.swift";`) but is consumed by the literal
`str.replace`, so it never occurs and every replacement is a no-op. -/
theorem c10_fix_file_paths_identity (content : Str) (h : '\\' ∉ content) :
    fix_file_paths_patch content = content := by
  unfold fix_file_paths_patch
  exact fix_file_paths_foldl_id path_fixes content h (by decide)

def c10Manifest : Str :=
  ("// !$*UTF8*$!\n/* Begin PBXFileReference section */\n\t\t1111111111111111111A1111 /* DIContainer.swift */ = \x7bisa = PBXFileReference; path = \"DIContainer.swift\"; sourceTree = \"<group>\"; \x7d;\n/* End PBXFileReference section */\n").toList

/-- Witness for C10: a concrete backslash-free manifest that even contains
a `path = "DIContainer.swift";` entry (the text the script intends to fix)
is returned unchanged. -/
theorem c10_witness : fix_file_paths_patch c10Manifest = c10Manifest :=
  c10_fix_file_paths_identity c10Manifest (by decide)

/-! The defective patterns of `add_missing_files` never fire on
backslash-free text. -/

theorem dropBs_of_no_bs (s : Str) (h : '\\' ∉ s) : dropBs s = s := by
  cases s with
  | nil => rfl
  | cons c t =>
    have hc : c ≠ '\\' := fun he => h (he ▸ List.mem_cons_self c t)
    simp [dropBs, List.takeWhile_cons, hc]

theorem bugMarkerRest_eq_none (lit s : Str) (hbs : '\\' ∉ s)
    (h : ¬ ('/' :: lit) <+: s) : bugMarkerRest lit s = none := by
  cases s with
  | nil => rfl
  | cons c t =>
    by_cases hc : c = '/'
    · subst hc
      have hbt : '\\' ∉ t := fun hm => hbs (List.mem_cons_of_mem _ hm)
      have hnl : ¬ lit <+: t := by
        intro hp
        exact h (List.cons_prefix_cons.mpr ⟨rfl, hp⟩)
      simp [bugMarkerRest, dropBs_of_no_bs t hbt, dropLit, hnl]
    · simp only [bugMarkerRest, if_neg hc]

theorem bugFindSectionRest_eq_none (bLit eLit : Str) : ∀ (s : Str), '\\' ∉ s →
    ¬ ('/' :: bLit) <:+: s → bugFindSectionRest bLit eLit s = none := by
  intro s
  induction s with
  | nil => intro _ _; rfl
  | cons c t ih =>
    intro hbs h
    have hm : bugMarkerRest bLit (c :: t) = none :=
      bugMarkerRest_eq_none bLit (c :: t) hbs fun hp => h (prefix_to_within _ _ hp)
    have ht : bugFindSectionRest bLit eLit t = none :=
      ih (fun hx => hbs (List.mem_cons_of_mem _ hx))
        (fun hx => h (List.infix_cons_iff.mpr (Or.inr hx)))
    simp only [bugFindSectionRest, hm, ht, Option.map_none']

theorem amSectionStep_skip (bLit eLit ins endMarker content : Str)
    (h : bugFindSectionRest bLit eLit content = none) :
    amSectionStep bLit eLit ins endMarker content = content := by
  simp only [amSectionStep, h]

theorem bugSourcesAtRest_eq_none (s : Str) (hbs : '\\' ∉ s) :
    bugSourcesAtRest s = none := by
  simp only [bugSourcesAtRest]
  by_cases h24 : (s.take 24).length = 24 ∧ (s.take 24).all isHexUpper = true
  case neg => rw [if_neg h24]
  case pos =>
    rw [if_pos h24]
    split
    next c1 c2 t hd =>
      by_cases hcc : c1 = ' ' ∧ c2 = '/'
      case neg => rw [if_neg hcc]
      case pos =>
        rw [if_pos hcc]
        have hmem : ∀ x ∈ t, x ∈ s := by
          intro x hx
          have hx2 : x ∈ s.drop 24 := by
            rw [hd]
            exact List.mem_cons_of_mem _ (List.mem_cons_of_mem _ hx)
          exact List.drop_subset 24 s hx2
        have hbt : '\\' ∉ t := fun hx => hbs (hmem _ hx)
        rw [dropBs_of_no_bs t hbt]
        by_cases hsl : " Sources ".toList <+: t
        case neg =>
          simp only [dropLit]
          rw [if_neg hsl]
          rfl
        case pos =>
          simp only [dropLit, if_pos hsl, Option.some_bind]
          have hbt2 : '\\' ∉ t.drop (" Sources ".toList.length) :=
            fun hx => hbt (List.drop_subset _ t hx)
          rw [dropBs_of_no_bs _ hbt2]
          split
          next => rfl
          next d u ht2 =>
            by_cases hdc : d = '/'
            case neg => rw [if_neg hdc]
            case pos =>
              rw [if_pos hdc]
              have hbu : '\\' ∉ u := by
                intro hx
                apply hbt2
                rw [ht2]
                exact List.mem_cons_of_mem _ hx
              have hnp : ¬ bugSourcesTailLit <+: u := by
                intro hp
                exact hbu (hp.subset (by decide))
              simp [dropLit, hnp]
    next => rfl

theorem bugFindSourcesRest_eq_none : ∀ (s : Str), '\\' ∉ s →
    bugFindSourcesRest s = none := by
  intro s
  induction s with
  | nil => intro _; rfl
  | cons c t ih =>
    intro hbs
    have h1 : bugSourcesAtRest (c :: t) = none := bugSourcesAtRest_eq_none _ hbs
    have h2 : bugFindSourcesRest t = none :=
      ih fun hx => hbs (List.mem_cons_of_mem _ hx)
    simp only [bugFindSourcesRest, h1, h2, Option.map_none']

/-- Claim C9: on every manifest without backslash characters in which the
defective begin patterns find no match — in particular on any manifest
whose section markers are in the standard literal form
`/* Begin ... */`, which the patterns cannot match because their `/\\*`
(doubled backslashes inside raw strings) demands a `/` followed by
backslash characters instead of the `*` of the real marker — the
in-memory patching of `add_missing_files` is the identity: every
`if match:` branch is skipped and the file is rewritten unchanged. -/
theorem c9_add_missing_files_identity (files : List (Str × Str × Str))
    (content : Str) (hbs : '\\' ∉ content)
    (h1 : ¬ ('/' :: amBeginFileRefLit) <:+: content)
    (h2 : ¬ ('/' :: amBeginBuildFileLit) <:+: content) :
    add_missing_files_patch files content = content := by
  have e1 := amSectionStep_skip amBeginFileRefLit amEndFileRefLit
    (catMap amFileRefEntry files ++ "\\t".toList) endFileRef content
    (bugFindSectionRest_eq_none _ _ content hbs h1)
  have e2 := amSectionStep_skip amBeginBuildFileLit amEndBuildFileLit
    (catMap amBuildFileEntry files ++ "\\t".toList) endBuildFile content
    (bugFindSectionRest_eq_none _ _ content hbs h2)
  have e3 := bugFindSourcesRest_eq_none content hbs
  simp only [add_missing_files_patch, e1, e2, e3]

def c9Manifest : Str :=
  ("// !$*UTF8*$!\n/* Begin PBXBuildFile section */\n/* End PBXBuildFile section */\n/* Begin PBXFileReference section */\n/* End PBXFileReference section */\nAAAAAAAAAAAAAAAAAAAAAAAA /* Sources */ = \x7b\n\t\t\tisa = PBXSourcesBuildPhase;\n\t\t\tfiles = (\n\t\t\t);\n\t\t\x7d;\n").toList

def c9Files : List (Str × Str × Str) :=
  [ ("Sources/Protocols/ServiceProtocols.swift".toList,
     "1111111111111111111A1111".toList, "2222222222222222222B2222".toList),
    ("Sources/Core/ErrorHandler.swift".toList,
     "3333333333333333333C3333".toList, "4444444444444444444D4444".toList) ]

/-- Witness for C9: a concrete manifest whose markers are in the standard
form, patched with the two files the script hardcodes, comes back
byte-identical. -/
theorem c9_witness : add_missing_files_patch c9Files c9Manifest = c9Manifest :=
  c9_add_missing_files_identity c9Files c9Manifest (by decide) (by decide)
    (by decide)

/-! Claim C1: duplicate registration. -/

def c1Manifest : Str :=
  "/* Begin PBXFileReference section */\n/* End PBXFileReference section */\n".toList

def c1U1 : Str := "1111111111111111111A1111".toList

def c1U2 : Str := "2222222222222222222B2222".toList

def c1U3 : Str := "3333333333333333333C3333".toList

def c1U4 : Str := "4444444444444444444D4444".toList

/-- The file-reference path text registered by `simple_fix`. -/
def diPathLit : Str := "path = \"Sources/Core/DIContainer.swift\";".toList

/-- Claim C1 (counterexample): patching the result of a successful patch
again with the same file does not fail — the code contains no
`DuplicatePath` check and no failure path — and the file-reference entry
for the path is silently inserted a second time. -/
theorem c1_repatch_inserts_again :
    countSub diPathLit (simple_fix_patch c1U1 c1U2 c1Manifest) = 1 ∧
    countSub diPathLit
      (simple_fix_patch c1U3 c1U4 (simple_fix_patch c1U1 c1U2 c1Manifest)) = 2 :=
  ⟨by decide, by decide⟩

/-- Claim C1 (amended): the patch performs no duplicate-path check:
whenever the file-reference section is located (the span occurring once,
its end marker only at the span's end), the new entry is inserted
immediately before the end marker even when an entry with the same path
is already present, so re-patching duplicates entries instead of failing
with `DuplicatePath`. -/
theorem c1_no_duplicate_check (file_uuid s pre mid post : Str)
    (h : findSection beginFileRef endFileRef s = some (pre, mid, post))
    (hE : splitFirst endFileRef (beginFileRef ++ mid ++ endFileRef) =
      some (beginFileRef ++ mid, []))
    (hu : splitFirst (beginFileRef ++ mid ++ endFileRef) post = none)
    (_hdup : containsSub diPathLit s = true) :
    insertBeforeEndMarker beginFileRef endFileRef
        (sfFileRefEntry file_uuid ++ ['\t']) s =
      pre ++ beginFileRef ++ mid ++ (sfFileRefEntry file_uuid ++ ['\t']) ++
        endFileRef ++ post :=
  insertBeforeEndMarker_eq beginFileRef endFileRef
    (sfFileRefEntry file_uuid ++ ['\t']) s pre mid post h (by decide) hE hu

def c1WPre : Str := "head\n".toList

def c1WMid : Str :=
  ("\n\t\t9999999999999999999F9999 /* DIContainer.swift */ = \x7bisa = PBXFileReference; lastKnownFileType = sourcecode.swift; path = \"Sources/Core/DIContainer.swift\"; sourceTree = \"<group>\"; \x7d;\n").toList

def c1WPost : Str := "\ntail\n".toList

/-- Witness for C1: a concrete manifest that already registers
`Sources/Core/DIContainer.swift` still receives a second entry. -/
theorem c1_witness :
    insertBeforeEndMarker beginFileRef endFileRef (sfFileRefEntry c1U1 ++ ['\t'])
        (c1WPre ++ beginFileRef ++ c1WMid ++ endFileRef ++ c1WPost) =
      c1WPre ++ beginFileRef ++ c1WMid ++ (sfFileRefEntry c1U1 ++ ['\t']) ++
        endFileRef ++ c1WPost :=
  c1_no_duplicate_check c1U1
    (c1WPre ++ beginFileRef ++ c1WMid ++ endFileRef ++ c1WPost)
    c1WPre c1WMid c1WPost (by decide) (by decide) (by decide) (by decide)

/-! Claim C2: missing/ambiguous markers. -/

def c2Manifest : Str := "no pbx markers at all\n".toList

def c2U1 : Str := "6666666666666666666A6666".toList

def c2U2 : Str := "7777777777777777777B7777".toList

/-- Claim C2 (counterexample): on a manifest with no section markers,
`simple_fix`'s patch returns normally with the content unchanged — no
`SectionNotFound` failure exists; every `if match:` branch is skipped and
the unchanged content is still written out. -/
theorem c2_absent_markers_no_failure :
    simple_fix_patch c2U1 c2U2 c2Manifest = c2Manifest := by decide

/-- Witness for C2: the insertion step on a markerless manifest. -/
theorem c2_witness :
    insertBeforeEndMarker beginFileRef endFileRef
        (sfFileRefEntry c2U1 ++ ['\t']) c2Manifest = c2Manifest :=
  c2_absent_marker_silently_skipped beginFileRef endFileRef
    (sfFileRefEntry c2U1 ++ ['\t']) c2Manifest (by decide)

/-! Claim C5: insertion locality. -/

def c5U1 : Str := "8888888888888888888A8888".toList

def c5U2 : Str := "9999999999999999999B9999".toList

def c5Span : Str := beginFileRef ++ "\n".toList ++ endFileRef

def c5Manifest : Str :=
  "A\n".toList ++ c5Span ++ "\nB\n".toList ++ c5Span ++ "\nC\n".toList

/-- Claim C5 (counterexample): on a manifest in which the located
file-reference span occurs twice, the patch — a global `str.replace` of
the span — inserts the entry into both occurrences: the manifest text
outside the located (leftmost) section is modified. -/
theorem c5_patch_not_local :
    countSub (sfFileRefEntry c5U1)
      (simple_fix_patch c5U1 c5U2 c5Manifest) = 2 := by decide

/-- Claim C5 (amended): provided the located span occurs exactly once in
the manifest and the end marker occurs within the span only at its end,
the patched manifest is exactly `pre ++ b ++ mid ++ ins ++ e ++ post`:
the inserted entries sit immediately before the section's end marker and
every byte outside the located span (`pre` and `post`) is unchanged.
When the span occurs more than once, the global replace also rewrites the
other occurrences — see the counterexample. -/
theorem c5_insertion_local (b e ins s pre mid post : Str)
    (h : findSection b e s = some (pre, mid, post))
    (he : e ≠ [])
    (hE : splitFirst e (b ++ mid ++ e) = some (b ++ mid, []))
    (hu : splitFirst (b ++ mid ++ e) post = none) :
    insertBeforeEndMarker b e ins s = pre ++ b ++ mid ++ ins ++ e ++ post :=
  insertBeforeEndMarker_eq b e ins s pre mid post h he hE hu

def c5WPre : Str := "x\n".toList

def c5WMid : Str := "\nmid\n".toList

def c5WPost : Str := "\ny\n".toList

/-- Witness for C5: a concrete single-span build-file section. -/
theorem c5_witness :
    insertBeforeEndMarker beginBuildFile endBuildFile "ENTRY;\n".toList
        (c5WPre ++ beginBuildFile ++ c5WMid ++ endBuildFile ++ c5WPost) =
      c5WPre ++ beginBuildFile ++ c5WMid ++ "ENTRY;\n".toList ++
        endBuildFile ++ c5WPost :=
  c5_insertion_local beginBuildFile endBuildFile "ENTRY;\n".toList
    (c5WPre ++ beginBuildFile ++ c5WMid ++ endBuildFile ++ c5WPost)
    c5WPre c5WMid c5WPost (by decide) (by decide) (by decide) (by decide)

/-! Claim C6: coupled group insertions. -/

def c6Manifest : Str :=
  "/* Begin PBXGroup section */\n/* End PBXGroup section */\n".toList

def c6Files : List (Str × Str × Str) :=
  [ ("Sources/Core/DIContainer.swift".toList,
     "1212121212121212121A1212".toList, "3434343434343434343B3434".toList) ]

def c6CoreUuid : Str := "5656565656565656565E5656".toList

/-- Claim C6 (counterexample): on a manifest with a PBXGroup section but
no `Sources` group block, `fix_project`'s patch inserts the `Core` group
definition into the group table but never inserts the parent-side line
referencing the `Core` identifier: one of the two supposedly coupled
insertions happens without the other. -/
theorem c6_partial_group_wiring :
    containsSub (coreGroupDef c6CoreUuid c6Files)
      (add_files_to_xcode_project_patch c6Files c6CoreUuid c6Manifest) = true ∧
    containsSub (coreChildLine c6CoreUuid)
      (add_files_to_xcode_project_patch c6Files c6CoreUuid c6Manifest) = false :=
  ⟨by decide, by decide⟩

/-- Claim C6 (amended): the two group insertions are independent `if`
blocks, not a transaction: when the `Sources`-group pattern finds no
match the parent-side insertion is silently skipped while the `Core`
group definition is still inserted into the PBXGroup section, so an
output manifest can contain one of the two insertions without the
other. -/
theorem c6_group_insertions_independent (coreUuid : Str)
    (files : List (Str × Str × Str)) (content : Str)
    (h : findSourcesSpanG childrenLit content = none) :
    insertBeforeEndMarker beginGroupSec endGroupSec
        (coreGroupDef coreUuid files ++ "\n\t".toList)
        (groupRefStep coreUuid content) =
      insertBeforeEndMarker beginGroupSec endGroupSec
        (coreGroupDef coreUuid files ++ "\n\t".toList) content := by
  simp only [groupRefStep, h]

/-- Witness for C6: the group-definition insertion proceeds on a manifest
with no `Sources` group. -/
theorem c6_witness :
    insertBeforeEndMarker beginGroupSec endGroupSec
        (coreGroupDef c6CoreUuid c6Files ++ "\n\t".toList)
        (groupRefStep c6CoreUuid c6Manifest) =
      insertBeforeEndMarker beginGroupSec endGroupSec
        (coreGroupDef c6CoreUuid c6Files ++ "\n\t".toList) c6Manifest :=
  c6_group_insertions_independent c6CoreUuid c6Files c6Manifest (by decide)

/-! Claim C7: insertion order. -/

theorem sourcesPhaseLoop_eq :
    ∀ (items : List (Str × Str)) (A pre post : Str),
    (∀ n, n ≤ items.length →
      splitFirst closeParen
          (A ++ catMap (fun it => phaseEntry it.1 it.2) (items.take n) ++ closeParen) =
        some (A ++ catMap (fun it => phaseEntry it.1 it.2) (items.take n), [])) →
    (∀ n, n ≤ items.length →
      splitFirst (A ++ catMap (fun it => phaseEntry it.1 it.2) (items.take n) ++ closeParen)
          (pre ++ (A ++ catMap (fun it => phaseEntry it.1 it.2) (items.take n) ++ closeParen) ++
            post) =
        some (pre, post) ∧
      splitFirst (A ++ catMap (fun it => phaseEntry it.1 it.2) (items.take n) ++ closeParen)
          post = none) →
    (∀ n, ∀ hn : n < items.length,
      containsSub (items.get ⟨n, hn⟩).1
        (A ++ catMap (fun it => phaseEntry it.1 it.2) (items.take n) ++ closeParen) = false) →
    sourcesPhaseLoop items (pre ++ (A ++ closeParen) ++ post) (A ++ closeParen) =
      pre ++ (A ++ catMap (fun it => phaseEntry it.1 it.2) items ++ closeParen) ++ post := by
  intro items
  induction items with
  | nil =>
    intro A pre post _ _ _
    simp [sourcesPhaseLoop]
  | cons it rest ih =>
    obtain ⟨bu, name⟩ := it
    intro A pre post hclose hspan huuid
    have h0 : containsSub bu (A ++ closeParen) = false := by
      have := huuid 0 (by simp)
      simpa using this
    have hcl0 : splitFirst closeParen (A ++ closeParen) = some (A, []) := by
      have := hclose 0 (by simp)
      simpa using this
    have hsp0 : splitFirst (A ++ closeParen) (pre ++ (A ++ closeParen) ++ post) =
        some (pre, post) ∧ splitFirst (A ++ closeParen) post = none := by
      have := hspan 0 (by simp)
      simpa using this
    have hsbd_ne : A ++ closeParen ≠ [] := by
      intro hcon
      exact absurd (List.append_eq_nil.mp hcon).2 (by decide)
    have hnbd : replaceAll closeParen (phaseEntry bu name ++ closeParen) (A ++ closeParen) =
        A ++ (phaseEntry bu name ++ closeParen) := by
      have := replaceAll_unique closeParen (phaseEntry bu name ++ closeParen)
        (A ++ closeParen) A [] (by decide) hcl0 (by decide)
      simpa using this
    have hcontent : replaceAll (A ++ closeParen)
        (replaceAll closeParen (phaseEntry bu name ++ closeParen) (A ++ closeParen))
        (pre ++ (A ++ closeParen) ++ post) =
        pre ++ (A ++ (phaseEntry bu name ++ closeParen)) ++ post := by
      rw [hnbd]
      exact replaceAll_unique (A ++ closeParen) (A ++ (phaseEntry bu name ++ closeParen))
        (pre ++ (A ++ closeParen) ++ post) pre post hsbd_ne hsp0.1 hsp0.2
    simp only [sourcesPhaseLoop]
    rw [if_neg (by simp [h0]), hcontent, hnbd]
    have hclose' : ∀ n, n ≤ rest.length →
        splitFirst closeParen
            ((A ++ phaseEntry bu name) ++
              catMap (fun it => phaseEntry it.1 it.2) (rest.take n) ++ closeParen) =
          some ((A ++ phaseEntry bu name) ++
            catMap (fun it => phaseEntry it.1 it.2) (rest.take n), []) := by
      intro n hn
      have := hclose (n + 1) (by simpa using Nat.succ_le_succ hn)
      simpa [List.take_succ_cons, List.append_assoc] using this
    have hspan' : ∀ n, n ≤ rest.length →
        splitFirst ((A ++ phaseEntry bu name) ++
            catMap (fun it => phaseEntry it.1 it.2) (rest.take n) ++ closeParen)
            (pre ++ ((A ++ phaseEntry bu name) ++
              catMap (fun it => phaseEntry it.1 it.2) (rest.take n) ++ closeParen) ++ post) =
          some (pre, post) ∧
        splitFirst ((A ++ phaseEntry bu name) ++
            catMap (fun it => phaseEntry it.1 it.2) (rest.take n) ++ closeParen) post =
          none := by
      intro n hn
      have := hspan (n + 1) (by simpa using Nat.succ_le_succ hn)
      simpa [List.take_succ_cons, List.append_assoc] using this
    have huuid' : ∀ n, ∀ hn : n < rest.length,
        containsSub (rest.get ⟨n, hn⟩).1
          ((A ++ phaseEntry bu name) ++
            catMap (fun it => phaseEntry it.1 it.2) (rest.take n) ++ closeParen) = false := by
      intro n hn
      have := huuid (n + 1) (by simpa using Nat.succ_lt_succ hn)
      simpa [List.take_succ_cons, List.append_assoc] using this
    rw [show A ++ (phaseEntry bu name ++ closeParen) =
        (A ++ phaseEntry bu name) ++ closeParen from (List.append_assoc _ _ _).symm]
    rw [ih (A ++ phaseEntry bu name) pre post hclose' hspan' huuid']
    simp [List.append_assoc]

/-- Claim C7: entries inserted by one patch call keep the caller's order.
Part (a): the file-reference section receives the concatenation
`catMap fpFileRefEntry files` of the rendered entries in list order
(Python dict iteration order is insertion order), inserted as one batch
immediately before the end marker.  Part (b): the build-phase loop
appends each entry immediately before the `);` of the (updated) span,
i.e. after all previously inserted entries, so the phase list carries the
entries in input order as well. -/
theorem c7_insertion_order (files : List (Str × Str × Str))
    (s pre mid post : Str) (items : List (Str × Str)) (A pre2 post2 : Str)
    (h : findSection beginFileRef endFileRef s = some (pre, mid, post))
    (hE : splitFirst endFileRef (beginFileRef ++ mid ++ endFileRef) =
      some (beginFileRef ++ mid, []))
    (hu : splitFirst (beginFileRef ++ mid ++ endFileRef) post = none)
    (hclose : ∀ n, n ≤ items.length →
      splitFirst closeParen
          (A ++ catMap (fun it => phaseEntry it.1 it.2) (items.take n) ++ closeParen) =
        some (A ++ catMap (fun it => phaseEntry it.1 it.2) (items.take n), []))
    (hspan : ∀ n, n ≤ items.length →
      splitFirst (A ++ catMap (fun it => phaseEntry it.1 it.2) (items.take n) ++ closeParen)
          (pre2 ++ (A ++ catMap (fun it => phaseEntry it.1 it.2) (items.take n) ++ closeParen) ++
            post2) =
        some (pre2, post2) ∧
      splitFirst (A ++ catMap (fun it => phaseEntry it.1 it.2) (items.take n) ++ closeParen)
          post2 = none)
    (huuid : ∀ n, ∀ hn : n < items.length,
      containsSub (items.get ⟨n, hn⟩).1
        (A ++ catMap (fun it => phaseEntry it.1 it.2) (items.take n) ++ closeParen) = false) :
    insertBeforeEndMarker beginFileRef endFileRef
        (catMap fpFileRefEntry files ++ ['\t']) s =
      pre ++ beginFileRef ++ mid ++ (catMap fpFileRefEntry files ++ ['\t']) ++
        endFileRef ++ post ∧
    sourcesPhaseLoop items (pre2 ++ (A ++ closeParen) ++ post2) (A ++ closeParen) =
      pre2 ++ (A ++ catMap (fun it => phaseEntry it.1 it.2) items ++ closeParen) ++ post2 :=
  ⟨insertBeforeEndMarker_eq beginFileRef endFileRef
      (catMap fpFileRefEntry files ++ ['\t']) s pre mid post h (by decide) hE hu,
   sourcesPhaseLoop_eq items A pre2 post2 hclose hspan huuid⟩

def c7Files : List (Str × Str × Str) :=
  [ ("Sources/Core/DIContainer.swift".toList,
     "1111111111111111111A1111".toList, "2222222222222222222B2222".toList),
    ("Sources/Core/EventBus.swift".toList,
     "3333333333333333333C3333".toList, "4444444444444444444D4444".toList) ]

def c7Items : List (Str × Str) :=
  [ ("2222222222222222222B2222".toList, "DIContainer.swift".toList),
    ("4444444444444444444D4444".toList, "EventBus.swift".toList) ]

def c7WPre : Str := "head\n".toList

def c7WMid : Str := "\n".toList

def c7WPost : Str := "\ntail\n".toList

def c7A : Str := "isa = PBXSourcesBuildPhase;\nfiles = (\n\t\t\t".toList

def c7Pre2 : Str := "P\n".toList

def c7Post2 : Str := "\nQ\n".toList

/-- Witness for C7: the two-file batch and the two-item loop at concrete
inputs. -/
theorem c7_witness :
    insertBeforeEndMarker beginFileRef endFileRef
        (catMap fpFileRefEntry c7Files ++ ['\t'])
        (c7WPre ++ beginFileRef ++ c7WMid ++ endFileRef ++ c7WPost) =
      c7WPre ++ beginFileRef ++ c7WMid ++ (catMap fpFileRefEntry c7Files ++ ['\t']) ++
        endFileRef ++ c7WPost ∧
    sourcesPhaseLoop c7Items (c7Pre2 ++ (c7A ++ closeParen) ++ c7Post2)
        (c7A ++ closeParen) =
      c7Pre2 ++ (c7A ++ catMap (fun it => phaseEntry it.1 it.2) c7Items ++ closeParen) ++
        c7Post2 :=
  c7_insertion_order c7Files
    (c7WPre ++ beginFileRef ++ c7WMid ++ endFileRef ++ c7WPost)
    c7WPre c7WMid c7WPost c7Items c7A c7Pre2 c7Post2
    (by decide) (by decide) (by decide) (by decide) (by decide) (by decide)

end PbxPatch
